import Mathlib

/-!
Verification of the grid-resident rigid-body physics core (src/world/physics.rs).

The data-parallel kernels are shallowly embedded as Lean functions. A kernel that
dispatches one logical thread per grid cell and mutates shared state through
atomic operations is modelled as a sequential fold over a list of cells; the list
order models the scheduler order, which the source leaves unconstrained, so the
theorems quantify over it. Cell fields (buffers indexed by grid position) become
functions from positions to values, updated with Function.update. Machine
integers (u32, i32) are modelled as Nat respectively Int; the floating-point
projection of a cell to its destination is passed to the movement kernels as an
opaque parameter dest, since the claims about those kernels hold for every
destination map.
-/

namespace Limbo

/-- Grid positions are pairs of integers (Vec2 of i32 in the source). -/
abbrev Pos : Type := ℤ × ℤ

/-- Object ids are u32 values, modelled as Nat. -/
abbrev ObjId : Type := ℕ

/-- NULL_OBJECT sentinel: u32::MAX. -/
def NULL_OBJECT : ObjId := 4294967295

/-- NUM_OBJECTS constant from the source. -/
def NUM_OBJECTS : ℕ := 16

/-- Collision record, mirroring struct Collision in the source. The f32 vector
fields are modelled over the rationals. -/
structure Collision where
  a_position : Pos
  b_position : Pos
  a_offset : ℚ × ℚ
  b_offset : ℚ × ℚ
  normal : ℚ × ℚ
  normal_mass : ℚ
  constraint_factor : ℕ
  total_impulse : ℚ × ℚ
  predicted_collision : Pos
  interpenetrating : Bool
deriving DecidableEq

/-- State touched by the per-cell movement kernels: the cell fields of
PhysicsFields, the collision list of CollisionFields (the data buffer together
with its atomic append counter, represented as the list of records written so
far, so that the counter value is the list length), and the per-object
num_constraints counters of ObjectFields. -/
structure PhysState where
  object : Pos → ObjId
  predictedObject : Pos → ObjId
  delta : Pos → Pos
  lock : Pos → ℕ
  collisions : List Collision
  numConstraints : ObjId → ℕ

/-- Body of move_kernel for one cell: an unowned cell zeroes its own delta;
an owned cell projects to dest cell and does lock.fetch_add(1) on the
destination, and if the returned old value was 0 it writes the destination
delta and predicted object. -/
def move_cell (dest : Pos → Pos) (s : PhysState) (cell : Pos) : PhysState :=
  let obj := s.object cell
  if obj = NULL_OBJECT then
    { s with delta := Function.update s.delta cell (0, 0) }
  else
    let predicted_cell := dest cell
    let old := s.lock predicted_cell
    let s1 := { s with lock := Function.update s.lock predicted_cell (old + 1) }
    if old = 0 then
      { s1 with
        delta := Function.update s1.delta predicted_cell (predicted_cell - cell)
        predictedObject := Function.update s1.predictedObject predicted_cell obj }
    else s1

/-- move_kernel dispatched over the source cells srcs in scheduler order. -/
def move_kernel (dest : Pos → Pos) (s : PhysState) (srcs : List Pos) : PhysState :=
  srcs.foldl (move_cell dest) s

/-- Collision record appended by predict_move_kernel when a claimant loses the
compare-exchange on the destination: a_position is the losing source cell,
predicted_collision the contended destination, interpenetrating true, all other
fields zero. -/
def interpenetrationRecord (cell predicted_cell : Pos) : Collision :=
  { a_position := cell
    b_position := (0, 0)
    a_offset := (0, 0)
    b_offset := (0, 0)
    normal := (0, 0)
    normal_mass := 0
    constraint_factor := 0
    total_impulse := (0, 0)
    predicted_collision := predicted_cell
    interpenetrating := true }

/-- Body of predict_move_kernel for one cell: an owned cell projects to dest
cell and performs compare_exchange(NULL_OBJECT, obj) on the predicted object of
the destination; on success it stores its object and delta there, on failure it
appends an interpenetration collision record at the next atomic index and bumps
num_constraints of both contending objects. -/
def predict_move_cell (dest : Pos → Pos) (s : PhysState) (cell : Pos) : PhysState :=
  let obj := s.object cell
  if obj = NULL_OBJECT then s
  else
    let predicted_cell := dest cell
    let other_obj := s.predictedObject predicted_cell
    if other_obj = NULL_OBJECT then
      { s with
        predictedObject := Function.update s.predictedObject predicted_cell obj
        delta := Function.update s.delta predicted_cell (predicted_cell - cell) }
    else
      let nc := Function.update s.numConstraints obj (s.numConstraints obj + 1)
      { s with
        collisions := s.collisions ++ [interpenetrationRecord cell predicted_cell]
        numConstraints := Function.update nc other_obj (nc other_obj + 1) }

/-- predict_move_kernel dispatched over the source cells srcs in scheduler
order. -/
def predict_move_kernel (dest : Pos → Pos) (s : PhysState) (srcs : List Pos) :
    PhysState :=
  srcs.foldl (predict_move_cell dest) s

/-- finalize_move_kernel: per cell, if the lock counter is not exactly 1 the
owner becomes NULL_OBJECT, otherwise the predicted object is committed. -/
def finalize_move_kernel (s : PhysState) : PhysState :=
  { s with
    object := fun cell =>
      if s.lock cell ≠ 1 then NULL_OBJECT else s.predictedObject cell }

/-- Host work before the move phase in update_physics: the lock buffer is
overwritten with zeroes and the collision append counter is reset to 0 (the
live region of the collision data buffer becomes empty). -/
def pre_move (s : PhysState) : PhysState :=
  { s with lock := fun _ => 0, collisions := [] }

/-- Host work before the predict phase in update_physics: the predicted object
buffer is overwritten with NULL_OBJECT. -/
def pre_predict (s : PhysState) : PhysState :=
  { s with predictedObject := fun _ => NULL_OBJECT }

/-- Sources in srcs that contend for destination p: owned cells whose projected
destination is p. -/
def claimants (object : Pos → ObjId) (dest : Pos → Pos) (srcs : List Pos)
    (p : Pos) : List Pos :=
  srcs.filter fun c => decide (object c ≠ NULL_OBJECT ∧ dest c = p)

/-- First claimant of destination p in scheduler order, if any. -/
def first_claimant (object : Pos → ObjId) (dest : Pos → Pos) (srcs : List Pos)
    (p : Pos) : Option Pos :=
  (claimants object dest srcs p).head?

/-- Number of collision records in l whose a_position (the losing source cell)
is c. -/
def aPosCount (l : List Collision) (c : Pos) : ℕ :=
  (l.filter fun r => decide (r.a_position = c)).length

/-- Losing claimants of predict_move_kernel in processing order: the recursion
replays the evolution of the predicted-object buffer po along the source list;
a source cell is a loser exactly when the compare-exchange on its destination
finds a non-NULL value. -/
def predict_losers (object : Pos → ObjId) (dest : Pos → Pos)
    (po : Pos → ObjId) : List Pos → List Pos
  | [] => []
  | c :: rest =>
    if object c = NULL_OBJECT then predict_losers object dest po rest
    else if po (dest c) = NULL_OBJECT then
      predict_losers object dest (Function.update po (dest c) (object c)) rest
    else c :: predict_losers object dest po rest

/-- Fixed capacity of the collision data buffer: setup_physics binds the
collision data field over StaticDomain of size 1024. -/
def COLLISION_BUFFER_CAPACITY : ℕ := 1024

/-- Host readback between predict_move_kernel and the next resolve passes:
update_physics copies the atomic append counter into the length of the dynamic
dispatch domain that the resolve kernels iterate over, with no comparison
against the buffer capacity and no error path. -/
def read_collision_count (next : ℕ) : ℕ := next

/-- State read and written by collide_kernel: the per-cell owner field of
PhysicsFields and the per-object fields of ObjectFields that the kernel
touches. The f32 scalars are modelled over the rationals. -/
structure SolveState where
  object : Pos → ObjId
  predicted_velocity : ObjId → ℚ × ℚ
  angvel : ObjId → ℚ
  impulse : ObjId → ℚ × ℚ
  angular_impulse : ObjId → ℚ

/-- Cross product of two 2D vectors, from the Cross impl for Expr of Vec2. -/
def vec_cross (v w : ℚ × ℚ) : ℚ := v.1 * w.2 - v.2 * w.1

/-- Cross product of a scalar with a 2D vector, from the Cross impl for Expr
of f32. -/
def scalar_cross (a : ℚ) (v : ℚ × ℚ) : ℚ × ℚ := (v.2 * a, -v.1 * a)

/-- Dot product of two 2D vectors. -/
def vdot (v w : ℚ × ℚ) : ℚ := v.1 * w.1 + v.2 * w.2

/-- Body of collide_kernel for one collision record: locates the two objects
through the owner field at the stored positions, computes the relative normal
velocity, clamps the accumulated total impulse at zero componentwise, and
applies the resulting incremental impulse with opposite signs to the two
objects through atomic adds. Returns the updated object state and the updated
record (whose total_impulse field the kernel writes back). In the source the
scalar impulse is broadcast over the Vec2 total_impulse, and the division is
by the constraint factor cast to f32. -/
def collide_kernel (s : SolveState) (col : Collision) : SolveState × Collision :=
  let a_obj := s.object col.a_position
  let b_obj := s.object col.b_position
  let relative_velocity :=
    s.predicted_velocity b_obj + scalar_cross (s.angvel b_obj) col.b_offset
      - s.predicted_velocity a_obj - scalar_cross (s.angvel a_obj) col.a_offset
  let normal_velocity := vdot relative_velocity col.normal
  let impulse := -normal_velocity * col.normal_mass
  let last_total_impulse := col.total_impulse
  let total_impulse :=
    (max (last_total_impulse.1 + impulse) 0, max (last_total_impulse.2 + impulse) 0)
  let impulse2 := total_impulse - last_total_impulse
  let impulse3 :=
    (impulse2.1 * col.normal.1 / (col.constraint_factor : ℚ),
     impulse2.2 * col.normal.2 / (col.constraint_factor : ℚ))
  let s := { s with
    impulse := Function.update s.impulse a_obj (s.impulse a_obj - impulse3) }
  let s := { s with
    impulse := Function.update s.impulse b_obj (s.impulse b_obj + impulse3) }
  let s := { s with
    angular_impulse := Function.update s.angular_impulse a_obj
      (s.angular_impulse a_obj + vec_cross impulse3 col.a_offset) }
  let s := { s with
    angular_impulse := Function.update s.angular_impulse b_obj
      (s.angular_impulse b_obj - vec_cross impulse3 col.b_offset) }
  (s, { col with total_impulse := total_impulse })

/-- Idealized f32 value: an exact rational, NaN, or a signed infinity.
Rounding is not modelled; the operations exercised by the theorems below
(division of zero by zero and propagation of NaN through addition) are exact
in IEEE f32, so the model is faithful there. -/
inductive F where
  | fin : ℚ → F
  | nan : F
  | inf : F
  | ninf : F
deriving DecidableEq

/-- IEEE addition on the idealized f32 values. -/
def F.add : F → F → F
  | F.fin a, F.fin b => F.fin (a + b)
  | F.nan, _ => F.nan
  | _, F.nan => F.nan
  | F.inf, F.ninf => F.nan
  | F.ninf, F.inf => F.nan
  | F.inf, _ => F.inf
  | _, F.inf => F.inf
  | F.ninf, _ => F.ninf
  | _, F.ninf => F.ninf

instance : Add F := ⟨F.add⟩

/-- IEEE multiplication on the idealized f32 values. -/
def F.mul : F → F → F
  | F.fin a, F.fin b => F.fin (a * b)
  | F.nan, _ => F.nan
  | _, F.nan => F.nan
  | F.inf, F.inf => F.inf
  | F.inf, F.ninf => F.ninf
  | F.ninf, F.inf => F.ninf
  | F.ninf, F.ninf => F.inf
  | F.inf, F.fin b => if b = 0 then F.nan else if 0 < b then F.inf else F.ninf
  | F.fin a, F.inf => if a = 0 then F.nan else if 0 < a then F.inf else F.ninf
  | F.ninf, F.fin b => if b = 0 then F.nan else if 0 < b then F.ninf else F.inf
  | F.fin a, F.ninf => if a = 0 then F.nan else if 0 < a then F.ninf else F.inf

instance : Mul F := ⟨F.mul⟩

/-- IEEE division on the idealized f32 values; in particular zero divided by
zero is NaN. The sign of a zero divisor is not tracked (a u32 zero cast to f32
is positive zero, the only case the theorems exercise). -/
def F.div : F → F → F
  | F.fin a, F.fin b =>
      if b = 0 then (if a = 0 then F.nan else if 0 < a then F.inf else F.ninf)
      else F.fin (a / b)
  | F.nan, _ => F.nan
  | _, F.nan => F.nan
  | F.inf, F.inf => F.nan
  | F.inf, F.ninf => F.nan
  | F.ninf, F.inf => F.nan
  | F.ninf, F.ninf => F.nan
  | F.inf, F.fin b => if 0 ≤ b then F.inf else F.ninf
  | F.ninf, F.fin b => if 0 ≤ b then F.ninf else F.inf
  | F.fin _, F.inf => F.fin 0
  | F.fin _, F.ninf => F.fin 0

instance : Div F := ⟨F.div⟩

/-- Cast of a u32 to f32, exact for the cell counts reachable on the 256 by
256 grid. -/
def u32_to_f32 (n : ℕ) : F := F.fin n

/-- Continuous per-object state of ObjectFields, for one object slot. -/
structure ObjState where
  mass : ℕ
  moment : ℕ
  position : F × F
  predicted_position : F × F
  angle : F
  predicted_angle : F
  velocity : F × F
  predicted_velocity : F × F
  angvel : F
  predicted_angvel : F
  impulse : F × F
  angular_impulse : F
  num_constraints : ℕ

/-- apply_impulses_kernel for one object: predicted velocity becomes velocity
plus impulse divided by mass, predicted angular velocity becomes angular
velocity plus angular impulse divided by moment. The division is unguarded. -/
def apply_impulses_kernel (o : ObjState) : ObjState :=
  { o with
    predicted_velocity :=
      (o.velocity.1 + o.impulse.1 / u32_to_f32 o.mass,
       o.velocity.2 + o.impulse.2 / u32_to_f32 o.mass)
    predicted_angvel := o.angvel + o.angular_impulse / u32_to_f32 o.moment }

/-- apply_impulses_with_restitution_kernel for one object; the f32 literal 1.1
is idealized as the rational 11/10, which is irrelevant to the NaN behaviour
proved below. -/
def apply_impulses_with_restitution_kernel (o : ObjState) : ObjState :=
  { o with
    predicted_velocity :=
      (o.velocity.1 + o.impulse.1 / u32_to_f32 o.mass * F.fin (11 / 10),
       o.velocity.2 + o.impulse.2 / u32_to_f32 o.mass * F.fin (11 / 10))
    predicted_angvel :=
      o.angvel + o.angular_impulse / u32_to_f32 o.moment * F.fin (11 / 10) }

/-- predict_kernel for one object: predicted position is position plus
predicted velocity, predicted angle is angle plus predicted angular
velocity. -/
def predict_kernel (o : ObjState) : ObjState :=
  { o with
    predicted_position :=
      (o.position.1 + o.predicted_velocity.1, o.position.2 + o.predicted_velocity.2)
    predicted_angle := o.angle + o.predicted_angvel }

/-- finalize_objects_kernel for one object: commits the predicted values and
zeroes the accumulators. -/
def finalize_objects_kernel (o : ObjState) : ObjState :=
  { o with
    velocity := o.predicted_velocity
    angvel := o.predicted_angvel
    position := o.predicted_position
    angle := o.predicted_angle
    impulse := (F.fin 0, F.fin 0)
    angular_impulse := F.fin 0
    num_constraints := 0 }

/-- Per-object composition of the kernels of update_physics that write the
continuous object state during one step, for an object that is named by no
collision record (the collide kernels only write the accumulators of objects
located through some record): apply_impulses_kernel three times, then
apply_impulses_with_restitution_kernel, then inside finish_move
predict_kernel followed by finalize_objects_kernel. -/
def object_step (o : ObjState) : ObjState :=
  finalize_objects_kernel (predict_kernel (apply_impulses_with_restitution_kernel
    (apply_impulses_kernel (apply_impulses_kernel (apply_impulses_kernel o)))))

/-- TAU from std f32 consts. -/
noncomputable def TAU : ℝ := 2 * Real.pi

/-- Rust f32 round: round half away from zero. -/
noncomputable def rust_round (x : ℝ) : ℤ :=
  if 0 ≤ x then ⌊x + 1 / 2⌋ else ⌈x - 1 / 2⌉

/-- skew_rotate: the three-shear rotation of an integer offset, with the two
shear coefficients computed from the angle; each sheared coordinate feeds the
next shear, as in the source. The f32 arithmetic is idealized over the reals,
which is exact at angle zero, the case settled below. -/
noncomputable def skew_rotate (v : Pos) (angle : ℝ) : Pos :=
  let a := -Real.tan (angle / 2)
  let b := Real.sin angle
  let x := v.1
  let y := v.2
  let x := x + rust_round ((y : ℝ) * a)
  let y := y + rust_round ((x : ℝ) * b)
  let x := x + rust_round ((y : ℝ) * a)
  (x, y)

/-- quadrant: the nearest quarter turn of the angle, as a residue modulo 4
(rem_euclid in the source). -/
noncomputable def quadrant (angle : ℝ) : ℤ :=
  (rust_round (angle * 4 / TAU)).emod 4

/-- quadrant_rotate: exact rotation of an integer offset by quarter turns. -/
def quadrant_rotate (v : Pos) (q : ℤ) : Pos :=
  let q := q.emod 4
  let v := if q % 2 = 1 then (-v.2, v.1) else v
  if 2 ≤ q then -v else v

/-- skew_rotate_quadrant: skew rotation by the residual angle after removing
the nearest quarter turn. -/
noncomputable def skew_rotate_quadrant (v : Pos) (angle : ℝ) : Pos :=
  skew_rotate v (angle - (quadrant angle : ℝ) * TAU / 4)

/-- Side length of the initialization bitmap in InitData. The definition is
irreducible so that elaboration never tries to enumerate the 65536 grid
coordinates; its value is exposed by the equation lemma below. -/
@[irreducible] def grid_side : ℕ := 256

/-- Grid coordinates of the 256 by 256 initialization bitmap, iterated by
init_physics. The source accumulates the per-object sums in two nested loops;
accumulation order is irrelevant to a sum, so Finset sums are used. -/
def GRID_CELLS : Finset (ℕ × ℕ) := Finset.range grid_side ×ˢ Finset.range grid_side

/-- Cells of the initialization bitmap owned by object i: init_physics skips
NULL cells and accumulates into the slot indexed by the cell value. -/
def owned_cells (cells : ℕ → ℕ → ObjId) (i : ObjId) : Finset (ℕ × ℕ) :=
  GRID_CELLS.filter fun p => cells p.1 p.2 ≠ NULL_OBJECT ∧ cells p.1 p.2 = i

/-- object mass computed by init_physics: one unit per owned cell. -/
def object_mass (cells : ℕ → ℕ → ObjId) (i : ObjId) : ℕ :=
  (owned_cells cells i).card

/-- Start corner of the world grid: GridDomain::new_wrapping([-64, -64],
[256, 256]) in the World resource. -/
def world_start : Pos := (-64, -64)

/-- object center computed by init_physics: coordinate sums divided by the
mass clamped to at least one (Int.tdiv is the truncating division of Rust
i32), shifted by the world start corner. -/
def object_center (cells : ℕ → ℕ → ObjId) (i : ObjId) : Pos :=
  (Int.tdiv ((owned_cells cells i).sum fun p => (p.1 : ℤ))
      (max (object_mass cells i : ℤ) 1) + world_start.1,
   Int.tdiv ((owned_cells cells i).sum fun p => (p.2 : ℤ))
      (max (object_mass cells i : ℤ) 1) + world_start.2)

/-- object moment computed by init_physics: for each owned bitmap cell, the
squared distance between the raw bitmap coordinate and the object center
(which init_physics has already shifted by the world start), summed with unit
cell mass. -/
def object_moment (cells : ℕ → ℕ → ObjId) (i : ObjId) : ℤ :=
  (owned_cells cells i).sum fun p =>
    ((p.1 : ℤ) - (object_center cells i).1) * ((p.1 : ℤ) - (object_center cells i).1)
      + ((p.2 : ℤ) - (object_center cells i).2) * ((p.2 : ℤ) - (object_center cells i).2)

/-- Orthogonal grid directions used by compute_rejection_kernel, with the
vectors of the direction table. -/
inductive GridDirection where
  | Up : GridDirection
  | Down : GridDirection
  | Left : GridDirection
  | Right : GridDirection
deriving DecidableEq

/-- Direction vectors from the vector table in direction.rs. -/
def GridDirection.as_vec : GridDirection → Pos
  | GridDirection.Up => (0, 1)
  | GridDirection.Down => (0, -1)
  | GridDirection.Left => (-1, 0)
  | GridDirection.Right => (1, 0)

/-- Squared length of an integer vector. -/
def sq_len (v : Pos) : ℤ := v.1 * v.1 + v.2 * v.2

/-- Candidate rejection vector contributed by one direction in the loop of
compute_rejection_kernel: the neighbor contributes its previous rejection only
when it belongs to the same object, and the unit step toward the neighbor is
added. -/
def rejection_candidate (object : Pos → ObjId) (prev_rejection : Pos → Pos)
    (cell : Pos) (obj : ObjId) (dir : GridDirection) : Pos :=
  (if object (cell + dir.as_vec) = obj then prev_rejection (cell + dir.as_vec)
    else (0, 0)) + dir.as_vec

/-- Update of the running best rejection vector for one direction, from the
loop body of compute_rejection_kernel: the candidate is kept only when the
cell it points at is outside the object and its squared length beats the best
so far. -/
def rejection_step (object : Pos → ObjId) (prev_rejection : Pos → Pos)
    (cell : Pos) (obj : ObjId) (best : ℤ × Pos) (dir : GridDirection) :
    ℤ × Pos :=
  let neighbor_pos := rejection_candidate object prev_rejection cell obj dir
  if object (neighbor_pos + cell) ≠ obj then
    let dist := sq_len neighbor_pos
    if dist < best.1 then (dist, neighbor_pos) else best
  else best

/-- Direction order of the loop in compute_rejection_kernel. -/
def rejection_dirs : List GridDirection :=
  [GridDirection.Up, GridDirection.Down, GridDirection.Left, GridDirection.Right]

/-- compute_rejection_kernel for one cell: unowned cells get the zero vector;
owned cells fold the candidate update over the four directions starting from
squared distance i32::MAX and store the best vector found. -/
def compute_rejection_kernel (object : Pos → ObjId) (prev_rejection : Pos → Pos)
    (cell : Pos) : Pos :=
  if object cell = NULL_OBJECT then (0, 0)
  else
    (rejection_dirs.foldl
      (rejection_step object prev_rejection cell (object cell))
      (2147483647, (0, 0))).2

/-- Destination map sending every cell to (5, 5), used as a concrete
projection instance. -/
def d_w : Pos → Pos := fun _ => (5, 5)

/-- Concrete physics state: cells (0, 0) and (1, 0) owned by object 3,
everything else unowned, cleared lock and collision list. -/
def s_w : PhysState :=
  { object := fun p => if p = ((0 : ℤ), (0 : ℤ)) ∨ p = (1, 0) then 3 else NULL_OBJECT
    predictedObject := fun _ => NULL_OBJECT
    delta := fun _ => (0, 0)
    lock := fun _ => 0
    collisions := []
    numConstraints := fun _ => 0 }

/-- Source list of 1026 distinct cells, used to overflow the 1024-entry
collision buffer when they all project to one destination. -/
def overflow_srcs : List Pos := (List.range 1026).map fun i => (Int.ofNat i, 0)

/-- Physics state in which every cell is owned by object 0, with cleared
predicted-object buffer and empty collision list. -/
def s_ovf : PhysState :=
  { object := fun _ => 0
    predictedObject := fun _ => NULL_OBJECT
    delta := fun _ => (0, 0)
    lock := fun _ => 0
    collisions := []
    numConstraints := fun _ => 0 }

/-- Object slot with zero owned cells as produced by init_physics: mass and
moment zero, accumulators zero, at a definite finite position. -/
def degenerate_object : ObjState :=
  { mass := 0
    moment := 0
    position := (F.fin 3, F.fin 4)
    predicted_position := (F.fin 0, F.fin 0)
    angle := F.fin 0
    predicted_angle := F.fin 0
    velocity := (F.fin 0, F.fin 0)
    predicted_velocity := (F.fin 0, F.fin 0)
    angvel := F.fin 0
    predicted_angvel := F.fin 0
    impulse := (F.fin 0, F.fin 0)
    angular_impulse := F.fin 0
    num_constraints := 0 }

/-- Concrete solver state for the collide witness: cell (0, 0) owned by
object 0, cell (1, 0) owned by object 1. -/
def s_cw : SolveState :=
  { object := fun p => if p = ((0 : ℤ), (0 : ℤ)) then 0 else 1
    predicted_velocity := fun o => if o = 0 then (2, 0) else (-1, 0)
    angvel := fun _ => 0
    impulse := fun _ => (0, 0)
    angular_impulse := fun _ => 0 }

/-- Concrete collision record for the collide witness. -/
def col_w : Collision :=
  { a_position := (0, 0)
    b_position := (1, 0)
    a_offset := (0, 0)
    b_offset := (0, 0)
    normal := (1, 0)
    normal_mass := 1
    constraint_factor := 1
    total_impulse := (0, 0)
    predicted_collision := (0, 0)
    interpenetrating := true }

/-- Concrete initialization bitmap: object 0 owns exactly the cell (0, 0). -/
def cells_w : ℕ → ℕ → ObjId :=
  fun x y => if x = 0 ∧ y = 0 then 0 else NULL_OBJECT

/-- Concrete ownership field for the rejection witness: object 7 owns exactly
the cell (0, 0). -/
def object_w7 : Pos → ObjId :=
  fun p => if p = ((0 : ℤ), (0 : ℤ)) then 7 else NULL_OBJECT

theorem claimants_cons (object : Pos → ObjId) (dest : Pos → Pos) (a : Pos)
    (l : List Pos) (p : Pos) :
    claimants object dest (a :: l) p =
      if object a ≠ NULL_OBJECT ∧ dest a = p then a :: claimants object dest l p
      else claimants object dest l p := by
  simp only [claimants, List.filter_cons]
  by_cases h : object a ≠ NULL_OBJECT ∧ dest a = p
  · simp [h]
  · simp [h]

theorem first_claimant_cons_self (object : Pos → ObjId) (dest : Pos → Pos)
    (a : Pos) (l : List Pos) (h : object a ≠ NULL_OBJECT) :
    first_claimant object dest (a :: l) (dest a) = some a := by
  simp [first_claimant, claimants_cons, h]

theorem move_cell_object (dest : Pos → Pos) (s : PhysState) (c : Pos) :
    (move_cell dest s c).object = s.object := by
  simp only [move_cell]
  split <;> [rfl; (split <;> rfl)]

theorem move_cell_collisions (dest : Pos → Pos) (s : PhysState) (c : Pos) :
    (move_cell dest s c).collisions = s.collisions := by
  simp only [move_cell]
  split <;> [rfl; (split <;> rfl)]

theorem move_kernel_object (dest : Pos → Pos) (srcs : List Pos) (s : PhysState) :
    (move_kernel dest s srcs).object = s.object := by
  induction srcs generalizing s with
  | nil => rfl
  | cons a l ih =>
    rw [move_kernel, List.foldl_cons, ← move_kernel, ih, move_cell_object]

theorem move_kernel_collisions (dest : Pos → Pos) (srcs : List Pos)
    (s : PhysState) : (move_kernel dest s srcs).collisions = s.collisions := by
  induction srcs generalizing s with
  | nil => rfl
  | cons a l ih =>
    rw [move_kernel, List.foldl_cons, ← move_kernel, ih, move_cell_collisions]

theorem move_cell_lock (dest : Pos → Pos) (s : PhysState) (c p : Pos) :
    (move_cell dest s c).lock p =
      if s.object c ≠ NULL_OBJECT ∧ dest c = p then s.lock p + 1
      else s.lock p := by
  simp only [move_cell]
  by_cases hO : s.object c = NULL_OBJECT
  · simp [hO]
  · rw [if_neg hO]
    by_cases hp : dest c = p
    · subst hp
      split <;> simp [Function.update_apply, hO]
    · split <;> simp [Function.update_apply, hO, hp, Ne.symm hp]

theorem move_cell_predictedObject (dest : Pos → Pos) (s : PhysState)
    (c p : Pos) :
    (move_cell dest s c).predictedObject p =
      if s.object c ≠ NULL_OBJECT ∧ dest c = p ∧ s.lock p = 0 then s.object c
      else s.predictedObject p := by
  simp only [move_cell]
  by_cases hO : s.object c = NULL_OBJECT
  · simp [hO]
  · rw [if_neg hO]
    by_cases hp : dest c = p
    · subst hp
      by_cases hL : s.lock (dest c) = 0
      · simp [hL, hO, Function.update_apply]
      · simp [hL, hO, Function.update_apply]
    · by_cases hL : s.lock (dest c) = 0 <;>
        simp [hL, hO, hp, Ne.symm hp, Function.update_apply]

theorem move_cell_delta (dest : Pos → Pos) (s : PhysState) (c p : Pos) :
    (move_cell dest s c).delta p =
      if s.object c = NULL_OBJECT ∧ c = p then (0, 0)
      else if s.object c ≠ NULL_OBJECT ∧ dest c = p ∧ s.lock p = 0 then p - c
      else s.delta p := by
  simp only [move_cell]
  by_cases hO : s.object c = NULL_OBJECT
  · by_cases hc : c = p
    · subst hc
      simp [hO, Function.update_apply]
    · have hc2 : ¬p = c := fun h => hc h.symm
      simp [hO, hc, hc2, Function.update_apply]
  · rw [if_neg hO]
    by_cases hp : dest c = p
    · subst hp
      by_cases hL : s.lock (dest c) = 0
      · simp [hL, hO, Function.update_apply]
      · simp [hL, hO, Function.update_apply]
    · by_cases hL : s.lock (dest c) = 0 <;>
        simp [hL, hO, hp, Ne.symm hp, Function.update_apply]

theorem move_kernel_lock (dest : Pos → Pos) (srcs : List Pos) (s : PhysState)
    (p : Pos) :
    (move_kernel dest s srcs).lock p =
      s.lock p + (claimants s.object dest srcs p).length := by
  induction srcs generalizing s with
  | nil => simp [move_kernel, claimants]
  | cons a l ih =>
    rw [move_kernel, List.foldl_cons, ← move_kernel, ih, claimants_cons,
      move_cell_object, move_cell_lock]
    by_cases h : s.object a ≠ NULL_OBJECT ∧ dest a = p
    · simp [h, Nat.add_comm, Nat.add_assoc, Nat.add_left_comm]
    · simp [h]

theorem move_kernel_predictedObject (dest : Pos → Pos) (srcs : List Pos)
    (s : PhysState) (p : Pos) :
    (move_kernel dest s srcs).predictedObject p =
      if s.lock p = 0 then
        match first_claimant s.object dest srcs p with
        | some c => s.object c
        | none => s.predictedObject p
      else s.predictedObject p := by
  induction srcs generalizing s with
  | nil => simp [move_kernel, first_claimant, claimants]
  | cons a l ih =>
    rw [move_kernel, List.foldl_cons, ← move_kernel, ih, move_cell_object,
      move_cell_lock, move_cell_predictedObject]
    by_cases h : s.object a ≠ NULL_OBJECT ∧ dest a = p
    · obtain ⟨hO, hp⟩ := h
      subst hp
      rw [first_claimant_cons_self _ _ _ _ hO]
      by_cases hL : s.lock (dest a) = 0
      · simp [hO, hL]
      · simp [hO, hL]
    · have h1 : first_claimant s.object dest (a :: l) p =
          first_claimant s.object dest l p := by
        simp only [first_claimant, claimants_cons, if_neg h]
      rw [h1, if_neg h]
      have h2 : ¬(s.object a ≠ NULL_OBJECT ∧ dest a = p ∧ s.lock p = 0) := by
        intro hx
        exact h ⟨hx.1, hx.2.1⟩
      rw [if_neg h2]

theorem move_kernel_delta (dest : Pos → Pos) (srcs : List Pos) (s : PhysState)
    (p : Pos) (hp : s.object p ≠ NULL_OBJECT ∨ p ∉ srcs) :
    (move_kernel dest s srcs).delta p =
      if s.lock p = 0 then
        match first_claimant s.object dest srcs p with
        | some c => p - c
        | none => s.delta p
      else s.delta p := by
  induction srcs generalizing s with
  | nil => simp [move_kernel, first_claimant, claimants]
  | cons a l ih =>
    have hnull : ¬(s.object a = NULL_OBJECT ∧ a = p) := by
      rintro ⟨h1, rfl⟩
      rcases hp with h2 | h2
      · exact h2 h1
      · exact h2 (List.mem_cons_self _ _)
    have hp1 : (move_cell dest s a).object p ≠ NULL_OBJECT ∨ p ∉ l := by
      rw [move_cell_object]
      rcases hp with h2 | h2
      · exact Or.inl h2
      · exact Or.inr fun hm => h2 (List.mem_cons_of_mem _ hm)
    rw [move_kernel, List.foldl_cons, ← move_kernel, ih _ hp1,
      move_cell_object, move_cell_lock, move_cell_delta, if_neg hnull]
    by_cases h : s.object a ≠ NULL_OBJECT ∧ dest a = p
    · obtain ⟨hO, hdp⟩ := h
      subst hdp
      rw [first_claimant_cons_self _ _ _ _ hO]
      by_cases hL : s.lock (dest a) = 0
      · simp [hO, hL]
      · simp [hO, hL]
    · have h1 : first_claimant s.object dest (a :: l) p =
          first_claimant s.object dest l p := by
        simp only [first_claimant, claimants_cons, if_neg h]
      rw [h1, if_neg h]
      have h2 : ¬(s.object a ≠ NULL_OBJECT ∧ dest a = p ∧ s.lock p = 0) := by
        intro hx
        exact h ⟨hx.1, hx.2.1⟩
      rw [if_neg h2]

theorem predict_move_cell_object (dest : Pos → Pos) (s : PhysState) (c : Pos) :
    (predict_move_cell dest s c).object = s.object := by
  simp only [predict_move_cell]
  split <;> [rfl; (split <;> rfl)]

theorem predict_move_cell_lock (dest : Pos → Pos) (s : PhysState) (c : Pos) :
    (predict_move_cell dest s c).lock = s.lock := by
  simp only [predict_move_cell]
  split <;> [rfl; (split <;> rfl)]

theorem predict_move_cell_predictedObject (dest : Pos → Pos) (s : PhysState)
    (c p : Pos) :
    (predict_move_cell dest s c).predictedObject p =
      if s.object c ≠ NULL_OBJECT ∧ dest c = p ∧
          s.predictedObject p = NULL_OBJECT then s.object c
      else s.predictedObject p := by
  simp only [predict_move_cell]
  by_cases hO : s.object c = NULL_OBJECT
  · simp [hO]
  · rw [if_neg hO]
    by_cases hp : dest c = p
    · subst hp
      by_cases hC : s.predictedObject (dest c) = NULL_OBJECT
      · simp [hC, hO, Function.update_apply]
      · simp [hC, hO, Function.update_apply]
    · by_cases hC : s.predictedObject (dest c) = NULL_OBJECT <;>
        simp [hC, hO, hp, Ne.symm hp, Function.update_apply]

theorem predict_move_cell_delta (dest : Pos → Pos) (s : PhysState) (c p : Pos) :
    (predict_move_cell dest s c).delta p =
      if s.object c ≠ NULL_OBJECT ∧ dest c = p ∧
          s.predictedObject p = NULL_OBJECT then p - c
      else s.delta p := by
  simp only [predict_move_cell]
  by_cases hO : s.object c = NULL_OBJECT
  · simp [hO]
  · rw [if_neg hO]
    by_cases hp : dest c = p
    · subst hp
      by_cases hC : s.predictedObject (dest c) = NULL_OBJECT
      · simp [hC, hO, Function.update_apply]
      · simp [hC, hO, Function.update_apply]
    · by_cases hC : s.predictedObject (dest c) = NULL_OBJECT <;>
        simp [hC, hO, hp, Ne.symm hp, Function.update_apply]

theorem predict_move_kernel_object (dest : Pos → Pos) (srcs : List Pos)
    (s : PhysState) : (predict_move_kernel dest s srcs).object = s.object := by
  induction srcs generalizing s with
  | nil => rfl
  | cons a l ih =>
    rw [predict_move_kernel, List.foldl_cons, ← predict_move_kernel, ih,
      predict_move_cell_object]

theorem predict_move_kernel_lock (dest : Pos → Pos) (srcs : List Pos)
    (s : PhysState) : (predict_move_kernel dest s srcs).lock = s.lock := by
  induction srcs generalizing s with
  | nil => rfl
  | cons a l ih =>
    rw [predict_move_kernel, List.foldl_cons, ← predict_move_kernel, ih,
      predict_move_cell_lock]

theorem predict_move_kernel_predictedObject (dest : Pos → Pos)
    (srcs : List Pos) (s : PhysState) (p : Pos) :
    (predict_move_kernel dest s srcs).predictedObject p =
      if s.predictedObject p = NULL_OBJECT then
        match first_claimant s.object dest srcs p with
        | some c => s.object c
        | none => NULL_OBJECT
      else s.predictedObject p := by
  induction srcs generalizing s with
  | nil =>
    simp only [predict_move_kernel, List.foldl_nil, first_claimant, claimants,
      List.filter_nil, List.head?_nil]
    split <;> simp_all
  | cons a l ih =>
    rw [predict_move_kernel, List.foldl_cons, ← predict_move_kernel, ih,
      predict_move_cell_object, predict_move_cell_predictedObject]
    by_cases h : s.object a ≠ NULL_OBJECT ∧ dest a = p
    · obtain ⟨hO, hp⟩ := h
      subst hp
      rw [first_claimant_cons_self _ _ _ _ hO]
      by_cases hC : s.predictedObject (dest a) = NULL_OBJECT
      · simp [hO, hC]
      · simp [hO, hC]
    · have h1 : first_claimant s.object dest (a :: l) p =
          first_claimant s.object dest l p := by
        simp only [first_claimant, claimants_cons, if_neg h]
      have h2 : ¬(s.object a ≠ NULL_OBJECT ∧ dest a = p ∧
          s.predictedObject p = NULL_OBJECT) := by
        intro hx
        exact h ⟨hx.1, hx.2.1⟩
      rw [h1, if_neg h2]

theorem predict_move_kernel_delta (dest : Pos → Pos) (srcs : List Pos)
    (s : PhysState) (p : Pos) :
    (predict_move_kernel dest s srcs).delta p =
      if s.predictedObject p = NULL_OBJECT then
        match first_claimant s.object dest srcs p with
        | some c => p - c
        | none => s.delta p
      else s.delta p := by
  induction srcs generalizing s with
  | nil =>
    simp only [predict_move_kernel, List.foldl_nil, first_claimant, claimants,
      List.filter_nil, List.head?_nil]
    split <;> rfl
  | cons a l ih =>
    rw [predict_move_kernel, List.foldl_cons, ← predict_move_kernel, ih,
      predict_move_cell_object, predict_move_cell_predictedObject,
      predict_move_cell_delta]
    by_cases h : s.object a ≠ NULL_OBJECT ∧ dest a = p
    · obtain ⟨hO, hp⟩ := h
      subst hp
      rw [first_claimant_cons_self _ _ _ _ hO]
      by_cases hC : s.predictedObject (dest a) = NULL_OBJECT
      · simp [hO, hC]
      · simp [hO, hC]
    · have h1 : first_claimant s.object dest (a :: l) p =
          first_claimant s.object dest l p := by
        simp only [first_claimant, claimants_cons, if_neg h]
      have h2 : ¬(s.object a ≠ NULL_OBJECT ∧ dest a = p ∧
          s.predictedObject p = NULL_OBJECT) := by
        intro hx
        exact h ⟨hx.1, hx.2.1⟩
      rw [h1]
      simp only [if_neg h2]

theorem predict_move_kernel_collisions (dest : Pos → Pos) (srcs : List Pos)
    (s : PhysState) :
    (predict_move_kernel dest s srcs).collisions =
      s.collisions ++
        (predict_losers s.object dest s.predictedObject srcs).map
          (fun c => interpenetrationRecord c (dest c)) := by
  induction srcs generalizing s with
  | nil => simp [predict_move_kernel, predict_losers]
  | cons a l ih =>
    rw [predict_move_kernel, List.foldl_cons, ← predict_move_kernel, ih]
    simp only [predict_move_cell, predict_losers]
    by_cases hO : s.object a = NULL_OBJECT
    · simp [hO]
    · rw [if_neg hO, if_neg hO]
      by_cases hC : s.predictedObject (dest a) = NULL_OBJECT
      · rw [if_pos hC, if_pos hC]
      · rw [if_neg hC, if_neg hC]
        simp

theorem predict_losers_sublist (object : Pos → ObjId) (dest : Pos → Pos)
    (po : Pos → ObjId) (l : List Pos) :
    (predict_losers object dest po l).Sublist l := by
  induction l generalizing po with
  | nil => simp [predict_losers]
  | cons a rest ih =>
    simp only [predict_losers]
    by_cases hO : object a = NULL_OBJECT
    · rw [if_pos hO]
      exact (ih po).cons a
    · rw [if_neg hO]
      by_cases hC : po (dest a) = NULL_OBJECT
      · rw [if_pos hC]
        exact (ih _).cons a
      · rw [if_neg hC]
        exact (ih po).cons₂ a

theorem predict_losers_mem (object : Pos → ObjId) (dest : Pos → Pos)
    (po : Pos → ObjId) (l : List Pos) (hn : l.Nodup) (c : Pos) :
    c ∈ predict_losers object dest po l ↔
      c ∈ l ∧ object c ≠ NULL_OBJECT ∧
        (po (dest c) ≠ NULL_OBJECT ∨
          first_claimant object dest l (dest c) ≠ some c) := by
  induction l generalizing po with
  | nil => simp [predict_losers]
  | cons a rest ih =>
    have ha : a ∉ rest := (List.nodup_cons.mp hn).1
    have hr : rest.Nodup := (List.nodup_cons.mp hn).2
    simp only [predict_losers]
    by_cases hO : object a = NULL_OBJECT
    · rw [if_pos hO]
      by_cases hca : c = a
      · subst hca
        have h1 : c ∉ predict_losers object dest po rest := fun hm =>
          ha ((predict_losers_sublist object dest po rest).mem hm)
        simp [h1, hO]
      · have h1 : first_claimant object dest (a :: rest) (dest c) =
            first_claimant object dest rest (dest c) := by
          simp [first_claimant, claimants_cons, hO]
        rw [ih po hr, h1]
        simp [hca]
    · rw [if_neg hO]
      by_cases hC : po (dest a) = NULL_OBJECT
      · rw [if_pos hC]
        by_cases hca : c = a
        · subst hca
          have h1 : c ∉ predict_losers object dest
              (Function.update po (dest c) (object c)) rest := fun hm =>
            ha ((predict_losers_sublist object dest _ rest).mem hm)
          have h2 : first_claimant object dest (c :: rest) (dest c) = some c :=
            first_claimant_cons_self object dest c rest hO
          simp [h1, h2, hO, hC]
        · rw [ih _ hr]
          by_cases hd : dest c = dest a
          · have h1 : Function.update po (dest a) (object a) (dest c) =
                object a := by
              rw [hd, Function.update_same]
            have h2 : first_claimant object dest (a :: rest) (dest c) =
                some a := by
              rw [hd]
              exact first_claimant_cons_self object dest a rest hO
            have h3 : ¬first_claimant object dest (a :: rest) (dest c) =
                some c := by
              rw [h2]
              intro hh
              injection hh with hh2
              exact hca hh2.symm
            simp [h1, h3, hca, hO]
          · have hd2 : ¬dest a = dest c := fun h => hd h.symm
            have h1 : Function.update po (dest a) (object a) (dest c) =
                po (dest c) := Function.update_noteq hd _ _
            have h2 : first_claimant object dest (a :: rest) (dest c) =
                first_claimant object dest rest (dest c) := by
              simp [first_claimant, claimants_cons, hd2]
            simp [h1, h2, hca]
      · rw [if_neg hC]
        by_cases hca : c = a
        · subst hca
          simp [hO, hC]
        · rw [List.mem_cons, ih po hr]
          by_cases hd : dest c = dest a
          · have h2 : first_claimant object dest (a :: rest) (dest c) =
                some a := by
              rw [hd]
              exact first_claimant_cons_self object dest a rest hO
            have hpo : po (dest c) ≠ NULL_OBJECT := by
              rw [hd]
              exact hC
            have h3 : ¬first_claimant object dest (a :: rest) (dest c) =
                some c := by
              rw [h2]
              intro hh
              injection hh with hh2
              exact hca hh2.symm
            simp [h3, hca, hpo]
          · have hd2 : ¬dest a = dest c := fun h => hd h.symm
            have h2 : first_claimant object dest (a :: rest) (dest c) =
                first_claimant object dest rest (dest c) := by
              simp [first_claimant, claimants_cons, hd2]
            simp [h2, hca]

theorem aPosCount_cons (r : Collision) (l : List Collision) (c : Pos) :
    aPosCount (r :: l) c = (if r.a_position = c then 1 else 0) + aPosCount l c := by
  simp only [aPosCount, List.filter_cons]
  by_cases h : r.a_position = c
  · simp [h, Nat.add_comm]
  · simp [h]

theorem aPosCount_map_losers (dest : Pos → Pos) (l : List Pos) (hn : l.Nodup)
    (c : Pos) :
    aPosCount (l.map fun x => interpenetrationRecord x (dest x)) c =
      if c ∈ l then 1 else 0 := by
  induction l with
  | nil => simp [aPosCount]
  | cons a t ih =>
    have ha : a ∉ t := (List.nodup_cons.mp hn).1
    have ht : t.Nodup := (List.nodup_cons.mp hn).2
    rw [List.map_cons, aPosCount_cons, ih ht]
    by_cases hc : a = c
    · subst hc
      simp [interpenetrationRecord, ha]
    · have hc2 : ¬c = a := fun h => hc h.symm
      simp [interpenetrationRecord, hc, hc2]

/-- Characterization of the owner field produced by a full move phase
(lock clear, move_kernel over the sources, finalize_move_kernel): a cell is
owned afterwards exactly when it had exactly one claimant, and then by the
object of that claimant. -/
theorem finalize_after_move_object (dest : Pos → Pos) (s : PhysState)
    (srcs : List Pos) (p : Pos) :
    (finalize_move_kernel (move_kernel dest (pre_move s) srcs)).object p =
      match claimants s.object dest srcs p with
      | [c] => s.object c
      | _ => NULL_OBJECT := by
  have hl := move_kernel_lock dest srcs (pre_move s) p
  have hpo := move_kernel_predictedObject dest srcs (pre_move s) p
  have e1 : (pre_move s).lock p = 0 := rfl
  have e2 : (pre_move s).object = s.object := rfl
  have e3 : (pre_move s).predictedObject = s.predictedObject := rfl
  rw [e1, e2] at hl
  rw [e1, e2, e3, if_pos rfl] at hpo
  simp only [first_claimant] at hpo
  show (if (move_kernel dest (pre_move s) srcs).lock p ≠ 1 then NULL_OBJECT
    else (move_kernel dest (pre_move s) srcs).predictedObject p) = _
  rw [hl, hpo]
  rcases hcl : claimants s.object dest srcs p with _ | ⟨c, _ | ⟨d, t⟩⟩
  · simp
  · simp
  · simp

/-- C1: for every destination cell, at most one source cell commits its delta
and predicted owner (the first claimant in scheduler order), as stated; but the
record-keeping half of the claim holds only for predict_move_kernel, where
every losing claimant appends exactly one collision record and nobody else
appends any; in move_kernel the losing claimants are dropped without appending
any collision record. -/
theorem C1_single_winner_and_collision_records (dest : Pos → Pos)
    (s : PhysState) (srcs : List Pos) (h1 : srcs.Nodup)
    (h2 : s.collisions = []) :
    (∀ p : Pos,
      (predict_move_kernel dest (pre_predict s) srcs).predictedObject p =
        match first_claimant s.object dest srcs p with
        | some c => s.object c
        | none => NULL_OBJECT) ∧
    (∀ p : Pos,
      (predict_move_kernel dest (pre_predict s) srcs).delta p =
        match first_claimant s.object dest srcs p with
        | some c => p - c
        | none => s.delta p) ∧
    (∀ c ∈ srcs, s.object c ≠ NULL_OBJECT →
      aPosCount (predict_move_kernel dest (pre_predict s) srcs).collisions c =
        if first_claimant s.object dest srcs (dest c) = some c then 0 else 1) ∧
    (∀ c : Pos, c ∉ srcs ∨ s.object c = NULL_OBJECT →
      aPosCount (predict_move_kernel dest (pre_predict s) srcs).collisions c
        = 0) ∧
    (move_kernel dest (pre_move s) srcs).collisions = [] ∧
    (∀ p : Pos,
      (move_kernel dest (pre_move s) srcs).predictedObject p =
        match first_claimant s.object dest srcs p with
        | some c => s.object c
        | none => s.predictedObject p) := by
  have epo : (pre_predict s).predictedObject = fun _ => NULL_OBJECT := rfl
  have eob : (pre_predict s).object = s.object := rfl
  have ede : (pre_predict s).delta = s.delta := rfl
  have ecl : (pre_predict s).collisions = [] := h2
  have hnodup : (predict_losers s.object dest (fun _ => NULL_OBJECT) srcs).Nodup :=
    (predict_losers_sublist s.object dest _ srcs).nodup h1
  refine ⟨?_, ?_, ?_, ?_, ?_, ?_⟩
  · intro p
    rw [predict_move_kernel_predictedObject, epo, eob, if_pos rfl]
  · intro p
    rw [predict_move_kernel_delta, epo, eob, ede, if_pos rfl]
  · intro c hc hobj
    rw [predict_move_kernel_collisions, epo, eob, ecl, List.nil_append,
      aPosCount_map_losers dest _ hnodup c]
    have hmem := predict_losers_mem s.object dest (fun _ => NULL_OBJECT) srcs h1 c
    by_cases hf : first_claimant s.object dest srcs (dest c) = some c
    · rw [if_pos hf, if_neg]
      rw [hmem]
      rintro ⟨-, -, h | h⟩
      · exact h rfl
      · exact h hf
    · rw [if_neg hf, if_pos]
      rw [hmem]
      exact ⟨hc, hobj, Or.inr hf⟩
  · intro c hc
    rw [predict_move_kernel_collisions, epo, eob, ecl, List.nil_append,
      aPosCount_map_losers dest _ hnodup c]
    rw [if_neg]
    rw [predict_losers_mem s.object dest (fun _ => NULL_OBJECT) srcs h1 c]
    rintro ⟨hmem1, hmem2, -⟩
    rcases hc with h | h
    · exact h hmem1
    · exact hmem2 h
  · rw [move_kernel_collisions]
    rfl
  · intro p
    have e1 : (pre_move s).lock p = 0 := rfl
    have e2 : (pre_move s).object = s.object := rfl
    have e3 : (pre_move s).predictedObject = s.predictedObject := rfl
    rw [move_kernel_predictedObject, e1, e2, e3, if_pos rfl]

/-- C1 counterexample: in a move_kernel dispatch the cells (0, 0) and (1, 0)
are both owned and both project to (5, 5); the lock of the destination ends at
2, only the first claimant commits its predicted owner, and the losing
claimant (1, 0) appends no collision record at all, so the collision list
stays empty, refuting that every contender for a contended destination
appends exactly one collision record. -/
theorem C1_counterexample :
    s_w.object (1, 0) ≠ NULL_OBJECT ∧
    d_w (1, 0) = d_w (0, 0) ∧
    (move_kernel d_w (pre_move s_w) [(0, 0), (1, 0)]).lock (5, 5) = 2 ∧
    (move_kernel d_w (pre_move s_w) [(0, 0), (1, 0)]).predictedObject (5, 5)
      = s_w.object (0, 0) ∧
    (move_kernel d_w (pre_move s_w) [(0, 0), (1, 0)]).collisions = [] ∧
    aPosCount (move_kernel d_w (pre_move s_w) [(0, 0), (1, 0)]).collisions
      (1, 0) = 0 := by
  decide

/-- C1 witness: concrete two-claimant instance of the amended claim; the
losing claimant of the predict phase appears exactly once in the collision
list. -/
theorem C1_witness :
    ([((0 : ℤ), (0 : ℤ)), (1, 0)] : List Pos).Nodup ∧ s_w.collisions = [] ∧
    aPosCount (predict_move_kernel d_w (pre_predict s_w)
      [((0 : ℤ), (0 : ℤ)), (1, 0)]).collisions (1, 0) = 1 := by
  refine ⟨by decide, rfl, ?_⟩
  have h := (C1_single_winner_and_collision_records d_w s_w
    [((0 : ℤ), (0 : ℤ)), (1, 0)] (by decide) rfl).2.2.1 (1, 0) (by decide)
    (by decide)
  rw [h, if_neg (by decide)]

/-- C2: after a full move phase, a cell whose lock shows exactly one claim
this step gets its predicted owner committed, and every other cell (no
claimant, or several) becomes NULL_OBJECT; in particular the previous owner is
never retained, so every owned cell must be re-claimed every step. -/
theorem C2_finalize_commits_winner_or_null (dest : Pos → Pos) (s : PhysState)
    (srcs : List Pos) (p : Pos) :
    (finalize_move_kernel (move_kernel dest (pre_move s) srcs)).object p =
      match claimants s.object dest srcs p with
      | [c] => s.object c
      | _ => NULL_OBJECT :=
  finalize_after_move_object dest s srcs p

/-- C3: the number of owned cells after the move phase finalizes is at most
the number of owned cells before it: each cell owned afterwards is matched to
its unique claimant, an owned source cell, injectively. -/
theorem C3_cell_conservation (dest : Pos → Pos) (s : PhysState)
    (srcs : List Pos) (h1 : srcs.Nodup) :
    (srcs.filter fun p =>
        decide ((finalize_move_kernel
          (move_kernel dest (pre_move s) srcs)).object p ≠ NULL_OBJECT)).length
      ≤ (srcs.filter fun p => decide (s.object p ≠ NULL_OBJECT)).length := by
  classical
  have hwin : ∀ p : Pos,
      (finalize_move_kernel (move_kernel dest (pre_move s) srcs)).object p
        ≠ NULL_OBJECT →
      ∃ c, claimants s.object dest srcs p = [c] ∧ s.object c ≠ NULL_OBJECT ∧
        dest c = p ∧ c ∈ srcs := by
    intro p hp
    rw [finalize_after_move_object] at hp
    rcases hcl : claimants s.object dest srcs p with _ | ⟨c, _ | ⟨d, t⟩⟩
    · rw [hcl] at hp
      simp at hp
    · have hc : c ∈ claimants s.object dest srcs p := by
        rw [hcl]
        exact List.mem_cons_self _ _
      rw [claimants, List.mem_filter] at hc
      have hc2 := of_decide_eq_true hc.2
      exact ⟨c, by first | exact hcl | rfl, hc2.1, hc2.2, hc.1⟩
    · rw [hcl] at hp
      simp at hp
  have hn1 : (srcs.filter fun p =>
      decide ((finalize_move_kernel
        (move_kernel dest (pre_move s) srcs)).object p ≠ NULL_OBJECT)).Nodup :=
    h1.filter _
  have hn2 : (srcs.filter fun p =>
      decide (s.object p ≠ NULL_OBJECT)).Nodup := h1.filter _
  rw [← List.toFinset_card_of_nodup hn1, ← List.toFinset_card_of_nodup hn2,
    List.toFinset_filter, List.toFinset_filter]
  apply Finset.card_le_card_of_injOn
    (fun p => (claimants s.object dest srcs p).headI)
  · intro p hp
    rw [Finset.mem_filter] at hp
    obtain ⟨hps, hq⟩ := hp
    obtain ⟨c, hcl, hobj, hdc, hcs⟩ := hwin p (of_decide_eq_true hq)
    rw [Finset.mem_filter]
    refine ⟨?_, ?_⟩
    · rw [hcl]
      rw [List.mem_toFinset]
      exact hcs
    · rw [hcl]
      simpa using hobj
  · intro p1 hp1 p2 hp2 heq
    rw [Finset.mem_coe, Finset.mem_filter] at hp1 hp2
    obtain ⟨c1, hcl1, _, hd1, _⟩ := hwin p1 (of_decide_eq_true hp1.2)
    obtain ⟨c2, hcl2, _, hd2, _⟩ := hwin p2 (of_decide_eq_true hp2.2)
    have heq2 : (claimants s.object dest srcs p1).headI =
        (claimants s.object dest srcs p2).headI := heq
    rw [hcl1, hcl2] at heq2
    simp only [List.headI] at heq2
    rw [← hd1, ← hd2, heq2]

theorem predict_losers_all_claimed (object : Pos → ObjId) (dest : Pos → Pos)
    (po : Pos → ObjId) (q : Pos) (l : List Pos) (hq : ∀ c ∈ l, dest c = q)
    (ho : ∀ c ∈ l, object c ≠ NULL_OBJECT) (hpo : po q ≠ NULL_OBJECT) :
    predict_losers object dest po l = l := by
  induction l with
  | nil => rfl
  | cons a t ih =>
    have hOa := ho a (List.mem_cons_self _ _)
    have hqa := hq a (List.mem_cons_self _ _)
    rw [predict_losers, if_neg hOa, if_neg (by rw [hqa]; exact hpo)]
    rw [ih (fun c hc => hq c (List.mem_cons_of_mem _ hc))
      (fun c hc => ho c (List.mem_cons_of_mem _ hc))]

theorem predict_move_overflow (dest : Pos → Pos) (q a : Pos) (rest : List Pos)
    (s : PhysState) (hq : ∀ c ∈ a :: rest, dest c = q)
    (ho : ∀ c ∈ a :: rest, s.object c ≠ NULL_OBJECT)
    (hpo : s.predictedObject q = NULL_OBJECT) :
    (predict_move_kernel dest s (a :: rest)).collisions.length =
      s.collisions.length + rest.length := by
  have hOa := ho a (List.mem_cons_self _ _)
  have hqa := hq a (List.mem_cons_self _ _)
  have hcell : predict_move_cell dest s a =
      { s with
        predictedObject :=
          Function.update s.predictedObject (dest a) (s.object a)
        delta := Function.update s.delta (dest a) (dest a - a) } := by
    rw [predict_move_cell, if_neg hOa, if_pos (by rw [hqa]; exact hpo)]
  rw [predict_move_kernel, List.foldl_cons, ← predict_move_kernel, hcell,
    predict_move_kernel_collisions]
  have hpo2 : Function.update s.predictedObject (dest a) (s.object a) q
      ≠ NULL_OBJECT := by
    rw [hqa, Function.update_same]
    exact hOa
  rw [predict_losers_all_claimed _ dest _ q rest
    (fun c hc => hq c (List.mem_cons_of_mem _ hc))
    (fun c hc => ho c (List.mem_cons_of_mem _ hc)) hpo2]
  simp

/-- C4: a predict phase over 1026 owned cells that all project to one
destination appends 1025 collision records, exceeding the 1024-entry capacity
of the collision data buffer, and the host readback that bounds the resolve
passes passes the count through with no validation against the capacity and
no error path. -/
theorem C4_overflow_count_not_validated :
    (predict_move_kernel (fun _ => ((0 : ℤ), (0 : ℤ))) s_ovf
      overflow_srcs).collisions.length = 1025 ∧
    COLLISION_BUFFER_CAPACITY < 1025 ∧
    read_collision_count 1025 = 1025 := by
  refine ⟨?_, by decide, rfl⟩
  have hsplit : overflow_srcs = ((0 : ℤ), (0 : ℤ)) ::
      (((List.range 1025).map Nat.succ).map fun i => (Int.ofNat i, (0 : ℤ))) := by
    rw [overflow_srcs, List.range_succ_eq_map, List.map_cons, List.map_map]
    rfl
  rw [hsplit, predict_move_overflow (fun _ => ((0 : ℤ), (0 : ℤ)))
    ((0 : ℤ), (0 : ℤ)) _ _ s_ovf (fun c _ => rfl)
    (fun c _ => by show (0 : ℕ) ≠ NULL_OBJECT; decide) rfl]
  rw [List.length_map, List.length_map, List.length_range]
  rfl

set_option maxRecDepth 4096 in
/-- C5: the object slot with zero owned cells has mass zero, and one physics
step sends its position to NaN through the unguarded division of the zero
impulse accumulator by the zero mass in apply_impulses_kernel; the position
does not remain unchanged as the claim requires. -/
theorem C5_zero_mass_object_position_becomes_nan :
    degenerate_object.mass = 0 ∧
    degenerate_object.impulse = (F.fin 0, F.fin 0) ∧
    (object_step degenerate_object).position = (F.nan, F.nan) ∧
    (object_step degenerate_object).position ≠ degenerate_object.position := by
  have h3 : (object_step degenerate_object).position = (F.nan, F.nan) := rfl
  refine ⟨rfl, rfl, h3, ?_⟩
  rw [h3]
  intro h
  exact F.noConfusion (congrArg Prod.fst h)

theorem grid_side_eq : grid_side = 256 := by
  unfold grid_side
  rfl

theorem mem_GRID_CELLS (p : ℕ × ℕ) :
    p ∈ GRID_CELLS ↔ p.1 < 256 ∧ p.2 < 256 := by
  rw [GRID_CELLS, Finset.mem_product, Finset.mem_range, Finset.mem_range,
    grid_side_eq]

/-- C6: an object that owns at least one cell of the initialization bitmap
gets strictly positive mass and strictly positive moment of inertia from
init_physics. -/
theorem C6_mass_and_moment_positive (cells : ℕ → ℕ → ObjId) (i : ObjId)
    (_h1 : i < NUM_OBJECTS) (h2 : (owned_cells cells i).Nonempty) :
    0 < object_mass cells i ∧ 0 < object_moment cells i := by
  refine ⟨Finset.card_pos.mpr h2, ?_⟩
  rcases Classical.em (∀ p ∈ owned_cells cells i,
      (p.1 : ℤ) - (object_center cells i).1 = 0 ∧
      (p.2 : ℤ) - (object_center cells i).2 = 0) with hall | hall
  · exfalso
    have hcard : (owned_cells cells i).card ≤ 1 := by
      rw [Finset.card_le_one]
      intro a ha b hb
      obtain ⟨ha1, ha2⟩ := hall a ha
      obtain ⟨hb1, hb2⟩ := hall b hb
      have e1 : (a.1 : ℤ) = (b.1 : ℤ) := by omega
      have e2 : (a.2 : ℤ) = (b.2 : ℤ) := by omega
      have e1n : a.1 = b.1 := Nat.cast_injective e1
      have e2n : a.2 = b.2 := Nat.cast_injective e2
      exact Prod.ext e1n e2n
    have hcard1 : (owned_cells cells i).card = 1 :=
      le_antisymm hcard (Finset.card_pos.mpr h2)
    obtain ⟨a, ha⟩ := Finset.card_eq_one.mp hcard1
    have hmass : object_mass cells i = 1 := by
      rw [object_mass, hcard1]
    have hmem : a ∈ owned_cells cells i := by
      rw [ha]
      exact Finset.mem_singleton_self a
    have hcx : (object_center cells i).1 = (a.1 : ℤ) - 64 := by
      rw [object_center, ha, hmass]
      simp [Int.tdiv_one, world_start]
      omega
    obtain ⟨hda, -⟩ := hall a hmem
    rw [hcx] at hda
    omega
  · push_neg at hall
    obtain ⟨p, hp, hdp⟩ := hall
    apply Finset.sum_pos'
    · intro q hq
      exact add_nonneg (mul_self_nonneg _) (mul_self_nonneg _)
    · refine ⟨p, hp, ?_⟩
      by_cases hdx : (p.1 : ℤ) - (object_center cells i).1 = 0
      · have hdy : (p.2 : ℤ) - (object_center cells i).2 ≠ 0 := fun h =>
          hdp hdx h
        exact add_pos_of_nonneg_of_pos (mul_self_nonneg _)
          (mul_self_pos.mpr hdy)
      · exact add_pos_of_pos_of_nonneg (mul_self_pos.mpr hdx)
          (mul_self_nonneg _)

/-- C6 witness: the bitmap in which object 0 owns exactly the cell (0, 0). -/
theorem C6_witness :
    (0 : ObjId) < NUM_OBJECTS ∧ (owned_cells cells_w 0).Nonempty ∧
    (0 < object_mass cells_w 0 ∧ 0 < object_moment cells_w 0) := by
  have hne : (owned_cells cells_w 0).Nonempty := by
    refine ⟨(0, 0), ?_⟩
    rw [owned_cells, Finset.mem_filter]
    exact ⟨(mem_GRID_CELLS _).mpr ⟨by norm_num, by norm_num⟩, by decide, rfl⟩
  exact ⟨by decide, hne, C6_mass_and_moment_positive cells_w 0 (by decide) hne⟩

/-- C3 witness: concrete instance with two owned cells both claiming the same
destination; afterwards no cell in the list is owned, and beforehand two
are. -/
theorem C3_witness :
    ([((0 : ℤ), (0 : ℤ)), (1, 0), (5, 5)] : List Pos).Nodup ∧
    (([((0 : ℤ), (0 : ℤ)), (1, 0), (5, 5)] : List Pos).filter fun p =>
        decide ((finalize_move_kernel
          (move_kernel d_w (pre_move s_w) [((0 : ℤ), (0 : ℤ)), (1, 0), (5, 5)])).object p
            ≠ NULL_OBJECT)).length
      ≤ (([((0 : ℤ), (0 : ℤ)), (1, 0), (5, 5)] : List Pos).filter fun p =>
          decide (s_w.object p ≠ NULL_OBJECT)).length :=
  ⟨by decide, C3_cell_conservation d_w s_w _ (by decide)⟩

theorem zero_pair_add (v : Pos) : ((0, 0) : Pos) + v = v := by
  rcases v with ⟨x, y⟩
  rw [Prod.mk_add_mk, zero_add, zero_add]

theorem sq_len_ge_one (v : Pos) (h : v ≠ (0, 0)) : 1 ≤ sq_len v := by
  rcases v with ⟨x, y⟩
  show 1 ≤ x * x + y * y
  by_cases hx : x = 0
  · have hy : y ≠ 0 := by
      intro hy
      exact h (by rw [hx, hy])
    have h1 : 0 < y * y := mul_self_pos.mpr hy
    have h2 : 0 ≤ x * x := mul_self_nonneg x
    omega
  · have h1 : 0 < x * x := mul_self_pos.mpr hx
    have h2 : 0 ≤ y * y := mul_self_nonneg y
    omega

theorem rejection_fold_spec (object : Pos → ObjId) (prev_rejection : Pos → Pos)
    (cell : Pos) (obj : ObjId) (l : List GridDirection) (b : ℤ × Pos) :
    (l.foldl (rejection_step object prev_rejection cell obj) b = b ∨
      ∃ d ∈ l,
        object (rejection_candidate object prev_rejection cell obj d + cell)
          ≠ obj ∧
        l.foldl (rejection_step object prev_rejection cell obj) b =
          (sq_len (rejection_candidate object prev_rejection cell obj d),
           rejection_candidate object prev_rejection cell obj d)) ∧
    (l.foldl (rejection_step object prev_rejection cell obj) b).1 ≤ b.1 ∧
    (∀ d ∈ l,
      object (rejection_candidate object prev_rejection cell obj d + cell)
        ≠ obj →
      (l.foldl (rejection_step object prev_rejection cell obj) b).1 ≤
        sq_len (rejection_candidate object prev_rejection cell obj d)) := by
  induction l generalizing b with
  | nil =>
    refine ⟨Or.inl rfl, le_refl _, ?_⟩
    intro d hd
    simp at hd
  | cons d t ih =>
    have hstep : (rejection_step object prev_rejection cell obj b d = b ∧
        ¬object (rejection_candidate object prev_rejection cell obj d + cell)
          ≠ obj) ∨
        (object (rejection_candidate object prev_rejection cell obj d + cell)
          ≠ obj ∧
         (rejection_step object prev_rejection cell obj b d = b ∨
          rejection_step object prev_rejection cell obj b d =
            (sq_len (rejection_candidate object prev_rejection cell obj d),
             rejection_candidate object prev_rejection cell obj d)) ∧
         (rejection_step object prev_rejection cell obj b d).1 ≤ b.1 ∧
         (rejection_step object prev_rejection cell obj b d).1 ≤
           sq_len (rejection_candidate object prev_rejection cell obj d)) := by
      rw [rejection_step]
      by_cases hacc :
          object (rejection_candidate object prev_rejection cell obj d + cell)
            ≠ obj
      · rw [if_pos hacc]
        by_cases hlt :
            sq_len (rejection_candidate object prev_rejection cell obj d) < b.1
        · right
          rw [if_pos hlt]
          exact ⟨hacc, Or.inr rfl, le_of_lt hlt, le_refl _⟩
        · right
          rw [if_neg hlt]
          exact ⟨hacc, Or.inl rfl, le_refl _, le_of_not_lt hlt⟩
      · rw [if_neg hacc]
        exact Or.inl ⟨rfl, hacc⟩
    rw [List.foldl_cons]
    obtain ⟨ih1, ih2, ih3⟩ :=
      ih (rejection_step object prev_rejection cell obj b d)
    rcases hstep with ⟨heq, hnacc⟩ | ⟨hacc, halt, hle, hcand⟩
    · rw [heq]
      rw [heq] at ih1 ih2 ih3
      refine ⟨?_, ih2, ?_⟩
      · rcases ih1 with h | ⟨d2, hd2, hacc2, heq2⟩
        · exact Or.inl h
        · exact Or.inr ⟨d2, List.mem_cons_of_mem _ hd2, hacc2, heq2⟩
      · intro d2 hd2 hacc2
        rcases List.mem_cons.mp hd2 with rfl | hd2t
        · exact absurd hacc2 hnacc
        · exact ih3 d2 hd2t hacc2
    · refine ⟨?_, le_trans ih2 hle, ?_⟩
      · rcases ih1 with h | ⟨d2, hd2, hacc2, heq2⟩
        · rcases halt with h2 | h2
          · rw [h, h2]
            exact Or.inl rfl
          · refine Or.inr ⟨d, List.mem_cons_self _ _, hacc, ?_⟩
            rw [h, h2]
        · exact Or.inr ⟨d2, List.mem_cons_of_mem _ hd2, hacc2, heq2⟩
      · intro d2 hd2 hacc2
        rcases List.mem_cons.mp hd2 with rfl | hd2t
        · exact le_trans ih2 hcand
        · exact ih3 d2 hd2t hacc2

/-- C7: an owned cell that has an orthogonal neighbor not owned by the same
object gets, after the rejection refresh, a rejection vector of squared length
exactly one. -/
theorem C7_boundary_rejection_has_unit_length (object : Pos → ObjId)
    (prev_rejection : Pos → Pos) (cell : Pos)
    (h1 : object cell ≠ NULL_OBJECT)
    (h2 : ∃ d : GridDirection, object (cell + d.as_vec) ≠ object cell) :
    sq_len (compute_rejection_kernel object prev_rejection cell) = 1 := by
  obtain ⟨d0, hd0⟩ := h2
  rw [compute_rejection_kernel, if_neg h1]
  have hc0 : rejection_candidate object prev_rejection cell (object cell) d0 =
      d0.as_vec := by
    rw [rejection_candidate, if_neg hd0, zero_pair_add]
  have hacc0 : object (rejection_candidate object prev_rejection cell
      (object cell) d0 + cell) ≠ object cell := by
    rw [hc0, add_comm]
    exact hd0
  have hsq0 : sq_len (rejection_candidate object prev_rejection cell
      (object cell) d0) = 1 := by
    rw [hc0]
    cases d0 <;> rfl
  have hd0mem : d0 ∈ rejection_dirs := by
    cases d0 <;> simp [rejection_dirs]
  obtain ⟨hform, hbound, hmin⟩ := rejection_fold_spec object prev_rejection
    cell (object cell) rejection_dirs (2147483647, (0, 0))
  have hle1 : (rejection_dirs.foldl
      (rejection_step object prev_rejection cell (object cell))
      (2147483647, (0, 0))).1 ≤ 1 := by
    have := hmin d0 hd0mem hacc0
    rw [hsq0] at this
    exact this
  rcases hform with hb | ⟨d2, _, hacc2, heq2⟩
  · rw [hb] at hle1
    norm_num at hle1
  · have hnz : rejection_candidate object prev_rejection cell (object cell) d2
        ≠ (0, 0) := by
      intro hz
      rw [hz, zero_pair_add] at hacc2
      exact hacc2 rfl
    have hge := sq_len_ge_one _ hnz
    rw [heq2] at hle1
    rw [heq2]
    have hsq : sq_len (rejection_candidate object prev_rejection cell
        (object cell) d2) = 1 := le_antisymm hle1 hge
    exact hsq

/-- C7 witness: a one-cell object; every neighbor of its cell is unowned, and
the refreshed rejection vector has squared length one. -/
theorem C7_witness :
    object_w7 ((0 : ℤ), (0 : ℤ)) ≠ NULL_OBJECT ∧
    object_w7 (((0 : ℤ), (0 : ℤ)) + GridDirection.Up.as_vec)
      ≠ object_w7 ((0 : ℤ), (0 : ℤ)) ∧
    sq_len (compute_rejection_kernel object_w7 (fun _ => (0, 0))
      ((0 : ℤ), (0 : ℤ))) = 1 := by
  refine ⟨by decide, by decide, ?_⟩
  exact C7_boundary_rejection_has_unit_length object_w7 (fun _ => (0, 0))
    ((0 : ℤ), (0 : ℤ)) (by decide) ⟨GridDirection.Up, by decide⟩

theorem rust_round_zero : rust_round 0 = 0 := by
  rw [rust_round, if_pos le_rfl, zero_add]
  rw [Int.floor_eq_zero_iff]
  constructor <;> norm_num

theorem quadrant_zero : quadrant 0 = 0 := by
  rw [quadrant, zero_mul, zero_div, rust_round_zero]
  rfl

theorem skew_rotate_zero (v : Pos) : skew_rotate v 0 = v := by
  rw [skew_rotate]
  have ha : -Real.tan (0 / 2) = 0 := by
    rw [zero_div, Real.tan_zero, neg_zero]
  have hb : Real.sin 0 = 0 := Real.sin_zero
  rw [ha, hb]
  simp [rust_round_zero]

theorem quadrant_rotate_zero (v : Pos) : quadrant_rotate v 0 = v := by
  rw [quadrant_rotate]
  norm_num

/-- C8: the rotation used by the predict-move projection, a quadrant rotation
composed with the three-shear skew rotation, is the identity on every integer
offset at angle zero, in both composition orders used by project. -/
theorem C8_rotation_identity_at_angle_zero (v : Pos) :
    quadrant_rotate (skew_rotate_quadrant v 0) (quadrant 0) = v ∧
    skew_rotate_quadrant (quadrant_rotate v (-quadrant 0)) (-(0 : ℝ)) = v := by
  have hsq : ∀ w : Pos, skew_rotate_quadrant w 0 = w := by
    intro w
    rw [skew_rotate_quadrant, quadrant_zero]
    norm_num
    exact skew_rotate_zero w
  constructor
  · rw [hsq, quadrant_zero, quadrant_rotate_zero]
  · rw [quadrant_zero, neg_zero, quadrant_rotate_zero, neg_zero]
    exact hsq v

theorem double_update_transfer (f : ObjId → ℚ × ℚ) (a b : ObjId) (i : ℚ × ℚ)
    (h : a ≠ b) :
    (Function.update (Function.update f a (f a - i)) b
        (Function.update f a (f a - i) b + i) a +
      Function.update (Function.update f a (f a - i)) b
        (Function.update f a (f a - i) b + i) b = f a + f b) ∧
    (f a - Function.update (Function.update f a (f a - i)) b
        (Function.update f a (f a - i) b + i) a =
      Function.update (Function.update f a (f a - i)) b
        (Function.update f a (f a - i) b + i) b - f b) := by
  have hba : ¬b = a := fun hx => h hx.symm
  have hab : ¬a = b := h
  have ega : Function.update (Function.update f a (f a - i)) b
      (Function.update f a (f a - i) b + i) a = f a - i := by
    rw [Function.update_apply, if_neg hab, Function.update_same]
  have egb : Function.update (Function.update f a (f a - i)) b
      (Function.update f a (f a - i) b + i) b = f b + i := by
    rw [Function.update_same, Function.update_apply, if_neg hba]
  rw [ega, egb]
  constructor <;> abel

/-- C9: one collision record processed by collide_kernel moves the same
impulse vector out of the first object accumulator and into the second, so
their sum is unchanged and the transfer is equal and opposite. -/
theorem C9_equal_and_opposite_impulse (s : SolveState) (col : Collision)
    (h : s.object col.a_position ≠ s.object col.b_position) :
    ((collide_kernel s col).1.impulse (s.object col.a_position) +
        (collide_kernel s col).1.impulse (s.object col.b_position) =
      s.impulse (s.object col.a_position) +
        s.impulse (s.object col.b_position)) ∧
    (s.impulse (s.object col.a_position) -
        (collide_kernel s col).1.impulse (s.object col.a_position) =
      (collide_kernel s col).1.impulse (s.object col.b_position) -
        s.impulse (s.object col.b_position)) :=
  double_update_transfer s.impulse (s.object col.a_position)
    (s.object col.b_position) _ h

/-- C9 witness: two distinct objects in contact through one record. -/
theorem C9_witness :
    s_cw.object col_w.a_position ≠ s_cw.object col_w.b_position ∧
    ((collide_kernel s_cw col_w).1.impulse (s_cw.object col_w.a_position) +
        (collide_kernel s_cw col_w).1.impulse (s_cw.object col_w.b_position) =
      s_cw.impulse (s_cw.object col_w.a_position) +
        s_cw.impulse (s_cw.object col_w.b_position)) ∧
    (s_cw.impulse (s_cw.object col_w.a_position) -
        (collide_kernel s_cw col_w).1.impulse (s_cw.object col_w.a_position) =
      (collide_kernel s_cw col_w).1.impulse (s_cw.object col_w.b_position) -
        s_cw.impulse (s_cw.object col_w.b_position)) :=
  ⟨by decide,
    (C9_equal_and_opposite_impulse s_cw col_w (by decide)).1,
    (C9_equal_and_opposite_impulse s_cw col_w (by decide)).2⟩

/-- C10: the total_impulse field written back by collide_kernel is clamped at
zero componentwise, so no record accumulates a net adhesive impulse across
resolve iterations. -/
theorem C10_total_impulse_clamped_nonnegative (s : SolveState)
    (col : Collision) :
    0 ≤ ((collide_kernel s col).2).total_impulse.1 ∧
    0 ≤ ((collide_kernel s col).2).total_impulse.2 :=
  ⟨le_max_right _ _, le_max_right _ _⟩

end Limbo
